import Mathlib

/-!
Verification of the arc-dsl ILP search engine (`arc_ilp` package).

This file gives a shallow embedding, in Lean 4, of the parts of the
`arc_ilp` Python package that the verified properties speak about:

* `types.py`     : the closed base-type vocabulary, function types, and the
                   structural compatibility predicate `is_type_compatible`.
* `hypothesis.py`: arguments, steps, hypotheses, and the type environment.
* `primitives.py`: per-primitive metadata (`PrimitiveInfo`), the
                   higher-order return-type table and the set of
                   function-taking primitives.
* `generator.py` : the constants registry, candidate-argument computation,
                   binding enumeration and iterative-deepening generation.
* `evaluator.py` : argument resolution, hypothesis execution and evaluation
                   against examples.
* `codegen.py`   : rendering to solver-style code and to a lambda form.
* `search.py`    : the search loop with depth and timeout budgets.

Python dictionaries are modelled as insertion-ordered association lists;
Python exceptions as `Except Unit`; the runtime values handled by the DSL
module are kept abstract (a type `Val` together with an application
function), and wall-clock readings are modelled by an abstract function
giving the elapsed time observed at the k-th between-hypothesis check.
-/

namespace ArcIlp

/-- Base types in the ARC-DSL (mirrors `BaseType` in `types.py`). -/
inductive BaseType where
  | BOOLEAN
  | INTEGER
  | INTEGER_TUPLE
  | GRID
  | CELL
  | OBJECT
  | OBJECTS
  | INDICES
  | INDICES_SET
  | INTEGER_SET
  | TUPLE
  | TUPLE_TUPLE
  | CONTAINER
  | CONTAINER_CONTAINER
  | FROZENSET
  | ANY
  deriving DecidableEq, Repr

/-- A type is either a base type or a function type (`CallableType` in
`types.py`: an ordered list of input types plus an output type). -/
inductive Ty where
  | base : BaseType → Ty
  | callable : List Ty → Ty → Ty

mutual

/-- Structural boolean equality on types (dataclass equality in Python). -/
def Ty.beq : Ty → Ty → Bool
  | .base x, .base y => x == y
  | .callable i o, .callable j p => Ty.beqList i j && Ty.beq o p
  | _, _ => false

/-- Structural boolean equality on lists of types. -/
def Ty.beqList : List Ty → List Ty → Bool
  | [], [] => true
  | a :: as, b :: bs => Ty.beq a b && Ty.beqList as bs
  | _, _ => false

end

mutual

theorem Ty.eq_of_beq : ∀ a b : Ty, Ty.beq a b = true → a = b
  | .base x, .base y, h => by
      have hx : x = y := by simpa [Ty.beq] using h
      rw [hx]
  | .base _, .callable _ _, h => by simp [Ty.beq] at h
  | .callable _ _, .base _, h => by simp [Ty.beq] at h
  | .callable i o, .callable j p, h => by
      have h' : Ty.beqList i j = true ∧ Ty.beq o p = true := by
        simpa [Ty.beq, Bool.and_eq_true] using h
      rw [Ty.eqList_of_beqList i j h'.1, Ty.eq_of_beq o p h'.2]

theorem Ty.eqList_of_beqList : ∀ a b : List Ty, Ty.beqList a b = true → a = b
  | [], [], _ => rfl
  | [], _ :: _, h => by simp [Ty.beqList] at h
  | _ :: _, [], h => by simp [Ty.beqList] at h
  | a :: as, b :: bs, h => by
      have h' : Ty.beq a b = true ∧ Ty.beqList as bs = true := by
        simpa [Ty.beqList, Bool.and_eq_true] using h
      rw [Ty.eq_of_beq a b h'.1, Ty.eqList_of_beqList as bs h'.2]

end

mutual

theorem Ty.beq_refl : ∀ a : Ty, Ty.beq a a = true
  | .base x => by simp [Ty.beq]
  | .callable i o => by simp [Ty.beq, Ty.beqList_refl i, Ty.beq_refl o]

theorem Ty.beqList_refl : ∀ a : List Ty, Ty.beqList a a = true
  | [] => rfl
  | a :: as => by simp [Ty.beqList, Ty.beq_refl a, Ty.beqList_refl as]

end

instance : DecidableEq Ty := fun a b =>
  if h : Ty.beq a b = true then .isTrue (Ty.eq_of_beq a b h)
  else .isFalse (fun hc => h (hc ▸ Ty.beq_refl a))

/-- Does a type belong to the `CONTAINER_TYPES` frozenset of `types.py`? -/
def inContainerTypes : Ty → Bool
  | .base b => b ∈ [BaseType.OBJECTS, BaseType.INDICES, BaseType.INTEGER_SET,
      BaseType.TUPLE, BaseType.GRID, BaseType.OBJECT, BaseType.CONTAINER]
  | _ => false

/-- Does a type belong to the `FROZENSET_TYPES` frozenset of `types.py`? -/
def inFrozensetTypes : Ty → Bool
  | .base b => b ∈ [BaseType.OBJECT, BaseType.OBJECTS, BaseType.INDICES,
      BaseType.INDICES_SET, BaseType.INTEGER_SET, BaseType.FROZENSET]
  | _ => false

/-- Membership in the `PATCH` union family of `types.py`. -/
def inPatch : Ty → Bool
  | .base b => b ∈ [BaseType.OBJECT, BaseType.INDICES]
  | _ => false

/-- Membership in the `ELEMENT` union family of `types.py`. -/
def inElement : Ty → Bool
  | .base b => b ∈ [BaseType.OBJECT, BaseType.GRID]
  | _ => false

/-- Membership in the `PIECE` union family of `types.py`. -/
def inPiece : Ty → Bool
  | .base b => b ∈ [BaseType.GRID, BaseType.OBJECT, BaseType.INDICES]
  | _ => false

/-- Membership in the tuple-compatibility set of the `TUPLE` rule. -/
def inTupleLike : Ty → Bool
  | .base b => b ∈ [BaseType.TUPLE, BaseType.GRID, BaseType.INTEGER_TUPLE,
      BaseType.TUPLE_TUPLE]
  | _ => false

/-- Is the type a function type (`isinstance(t, CallableType)`)? -/
def isCallableTy : Ty → Bool
  | .callable _ _ => true
  | _ => false

/-- `is_type_compatible(arg_type, param_type)` from `types.py`, as an
ordered first-match-wins chain of rules, translated branch by branch. -/
def is_type_compatible (arg_type param_type : Ty) : Bool :=
  if param_type = Ty.base .ANY then true
  else if arg_type = Ty.base .ANY then true
  else if arg_type = param_type then true
  else if param_type = Ty.base .INTEGER_TUPLE ∧ arg_type = Ty.base .INTEGER then
    false
  else if param_type = Ty.base .CONTAINER then
    inContainerTypes arg_type || arg_type = Ty.base .CONTAINER
  else if param_type = Ty.base .CONTAINER_CONTAINER then
    match arg_type with
    | .base b => b ∈ [BaseType.OBJECTS, BaseType.INDICES_SET,
        BaseType.TUPLE_TUPLE, BaseType.CONTAINER_CONTAINER]
    | _ => false
  else if param_type = Ty.base .FROZENSET then inFrozensetTypes arg_type
  else if inPatch param_type ∧ inPatch arg_type then true
  else if inElement param_type ∧ inElement arg_type then true
  else if inPiece param_type ∧ inPiece arg_type then true
  else if param_type = Ty.base .TUPLE then inTupleLike arg_type
  else
    match param_type, arg_type with
    | .callable pins _, .callable ains _ => pins.length == ains.length
    | .callable _ _, _ => false
    | _, _ => false

/-- The four argument kinds of `hypothesis.py` (`Argument.kind` strings
`constant`, `variable`, `input`, `primitive`). -/
inductive ArgKind where
  | constant
  | varRef
  | input
  | primitive
  deriving DecidableEq, Repr

/-- An argument to a primitive call (`Argument` in `hypothesis.py`). -/
structure Argument where
  kind : ArgKind
  value : String
  deriving DecidableEq, Repr

/-- A step: a primitive call or a call of a function-typed variable
(`PrimitiveCall` / `CallVariable` in `hypothesis.py`). -/
inductive Step where
  | primitiveCall (primitive : String) (arguments : List Argument)
      (output_var : String)
  | callVariable (callee : String) (arguments : List Argument)
      (output_var : String)
  deriving DecidableEq, Repr

/-- The output variable bound by a step. -/
def Step.outputVar : Step → String
  | .primitiveCall _ _ ov => ov
  | .callVariable _ _ ov => ov

/-- A candidate program: an ordered sequence of steps. -/
structure Hypothesis where
  steps : List Step
  deriving DecidableEq, Repr

/-- Metadata about a DSL primitive (`PrimitiveInfo` in `primitives.py`). -/
structure PrimitiveInfo where
  name : String
  param_names : List String
  param_types : List Ty
  return_type : Ty
  deriving DecidableEq

/-- The primitive catalog: what `extract_primitives` returns — an
insertion-ordered mapping from primitive name to its metadata. -/
abbrev Catalog : Type := List (String × PrimitiveInfo)

/-- Insertion-ordered dictionary update: replace the value at an existing
key in place, otherwise append (Python dict assignment). -/
def dict_set {α : Type} : List (String × α) → String → α → List (String × α)
  | [], k, v => [(k, v)]
  | (k', v') :: rest, k, v =>
      if k' = k then (k', v) :: rest else (k', v') :: dict_set rest k v

/-- Dictionary lookup (Python `dict.get`). -/
def dict_get {α : Type} : List (String × α) → String → Option α
  | [], _ => none
  | (k', v) :: rest, k => if k' = k then some v else dict_get rest k

/-- A type environment: insertion-ordered variable-to-type bindings
(`TypeEnv.variables` in `hypothesis.py`). -/
abbrev TypeEnv : Type := List (String × Ty)

/-- A fresh type environment: only the input bound to the grid type. -/
def initialTypeEnv : TypeEnv := [("I", Ty.base .GRID)]

/-- The variables of the environment holding function-typed values
(`TypeEnv.get_callable_vars`). -/
def get_callable_vars (env : TypeEnv) : List String :=
  env.filterMap (fun p => if isCallableTy p.2 then some p.1 else none)

/-- The generic function type `CallableType((ANY,), ANY)`. -/
def anyCallable : Ty := .callable [.base .ANY] (.base .ANY)

/-- `HIGHER_ORDER_RETURNING_CALLABLE` from `primitives.py`: fixed return
function types for the known callable-returning primitives. -/
def HIGHER_ORDER_RETURNING_CALLABLE : List (String × Ty) :=
  [("compose", anyCallable), ("chain", anyCallable), ("fork", anyCallable),
   ("lbind", anyCallable), ("rbind", anyCallable),
   ("matcher", .callable [.base .ANY] (.base .BOOLEAN)),
   ("power", anyCallable)]

/-- `FUNCTION_TAKING_PRIMITIVES` from `primitives.py` (membership only —
the Python value is a set). -/
def FUNCTION_TAKING_PRIMITIVES : List String :=
  ["compose", "chain", "fork", "lbind", "rbind", "matcher", "power",
   "apply", "mapply", "sfilter", "mfilter", "argmax", "argmin",
   "order", "extract", "valmax", "valmin", "rapply", "papply", "mpapply",
   "prapply"]

/-- The constants registry of `generator.py` (`CONSTANTS`), in source
order. -/
def CONSTANTS : List (String × BaseType) :=
  [("T", .BOOLEAN), ("F", .BOOLEAN),
   ("ZERO", .INTEGER), ("ONE", .INTEGER), ("TWO", .INTEGER),
   ("THREE", .INTEGER), ("FOUR", .INTEGER), ("FIVE", .INTEGER),
   ("SIX", .INTEGER), ("SEVEN", .INTEGER), ("EIGHT", .INTEGER),
   ("NINE", .INTEGER), ("TEN", .INTEGER), ("NEG_ONE", .INTEGER),
   ("NEG_TWO", .INTEGER),
   ("DOWN", .INTEGER_TUPLE), ("RIGHT", .INTEGER_TUPLE),
   ("UP", .INTEGER_TUPLE), ("LEFT", .INTEGER_TUPLE),
   ("ORIGIN", .INTEGER_TUPLE), ("UNITY", .INTEGER_TUPLE),
   ("NEG_UNITY", .INTEGER_TUPLE), ("UP_RIGHT", .INTEGER_TUPLE),
   ("DOWN_LEFT", .INTEGER_TUPLE), ("ZERO_BY_TWO", .INTEGER_TUPLE),
   ("TWO_BY_ZERO", .INTEGER_TUPLE), ("TWO_BY_TWO", .INTEGER_TUPLE),
   ("THREE_BY_THREE", .INTEGER_TUPLE)]

/-- One step of `build_type_env` from `hypothesis.py`: bind the step's
output variable to its statically inferred type. -/
def type_env_step (prims : Catalog) (env : TypeEnv) (s : Step) : TypeEnv :=
  match s with
  | .primitiveCall p _ ov =>
      match dict_get prims p with
      | some info =>
          match dict_get HIGHER_ORDER_RETURNING_CALLABLE p with
          | some t => dict_set env ov t
          | none => dict_set env ov info.return_type
      | none => dict_set env ov (Ty.base .ANY)
  | .callVariable c _ ov =>
      match dict_get env c with
      | some (Ty.callable _ out) => dict_set env ov out
      | _ => dict_set env ov (Ty.base .ANY)

/-- `build_type_env(hypothesis, primitives)` from `hypothesis.py`. -/
def build_type_env (h : Hypothesis) (prims : Catalog) : TypeEnv :=
  h.steps.foldl (type_env_step prims) initialTypeEnv

/-- `next_var_name(hypothesis)` from `hypothesis.py`. -/
def next_var_name (h : Hypothesis) : String :=
  "x" ++ toString (h.steps.length + 1)

/-- `get_possible_arguments(param_type, env, primitives, include_primitives)`
from `generator.py`: the input (if grid-compatible), compatible constants,
compatible environment variables other than the input, and — when
`include_primitives` is set or the parameter is function-typed — primitives
reinterpreted as function-typed references. Order follows the source. -/
def get_possible_arguments (param_type : Ty) (env : TypeEnv) (prims : Catalog)
    (include_primitives : Bool) : List Argument :=
  (if is_type_compatible (Ty.base .GRID) param_type then
     [Argument.mk .input "I"] else [])
  ++ CONSTANTS.filterMap (fun c =>
       if is_type_compatible (Ty.base c.2) param_type then
         some (Argument.mk .constant c.1) else none)
  ++ env.filterMap (fun v =>
       if v.1 = "I" then none
       else if is_type_compatible v.2 param_type then
         some (Argument.mk .varRef v.1) else none)
  ++ (if include_primitives || isCallableTy param_type then
        prims.filterMap (fun p =>
          if is_type_compatible (Ty.callable p.2.param_types p.2.return_type)
              param_type then
            some (Argument.mk .primitive p.1) else none)
      else [])

/-- Cartesian product of per-position candidate lists, in the order
produced by `itertools.product` (rightmost position varies fastest). -/
def list_product {α : Type} : List (List α) → List (List α)
  | [] => [[]]
  | l :: ls => l.flatMap (fun x => (list_product ls).map (fun xs => x :: xs))

/-- The candidate-argument list computed by `enumerate_bindings` for one
parameter position of a primitive: primitives may be passed as arguments
only when the primitive is function-taking and the parameter is
function-typed. -/
def candidate_options (p : PrimitiveInfo) (env : TypeEnv) (prims : Catalog)
    (pt : Ty) : List Argument :=
  get_possible_arguments pt env prims
    (decide (p.name ∈ FUNCTION_TAKING_PRIMITIVES) && isCallableTy pt)

/-- The per-position option lists of `enumerate_bindings`; `none` when some
position has no candidate (the Python loop returns early, yielding
nothing). -/
def build_options (p : PrimitiveInfo) (env : TypeEnv) (prims : Catalog) :
    List Ty → Option (List (List Argument))
  | [] => some []
  | pt :: rest =>
      let options := candidate_options p env prims pt
      if options = [] then none
      else
        match build_options p env prims rest with
        | none => none
        | some os => some (options :: os)

/-- `enumerate_bindings(prim_info, env, primitives)` from `generator.py`. -/
def enumerate_bindings (p : PrimitiveInfo) (env : TypeEnv) (prims : Catalog) :
    List (List Argument) :=
  if p.param_types = [] then [[]]
  else
    match build_options p env prims p.param_types with
    | none => []
    | some opts => list_product opts

/-- Per-position option lists for calling a function-typed variable
(`enumerate_call_bindings` computes candidates with
`include_primitives = False`). -/
def build_call_options (env : TypeEnv) (prims : Catalog) :
    List Ty → Option (List (List Argument))
  | [] => some []
  | pt :: rest =>
      let options := get_possible_arguments pt env prims false
      if options = [] then none
      else
        match build_call_options env prims rest with
        | none => none
        | some os => some (options :: os)

/-- `enumerate_call_bindings(callable_type, env, primitives)` from
`generator.py`, given the input types of the callable. -/
def enumerate_call_bindings (input_types : List Ty) (env : TypeEnv)
    (prims : Catalog) : List (List Argument) :=
  if input_types = [] then [[]]
  else
    match build_call_options env prims input_types with
    | none => []
    | some opts => list_product opts

/-- `generate_single_step(primitives)` from `generator.py`: all one-step
hypotheses whose primitive is grid-compatible, bound to the terminal
name. -/
def generate_single_step (prims : Catalog) : List Hypothesis :=
  prims.flatMap (fun p =>
    if is_type_compatible p.2.return_type (Ty.base .GRID) then
      (enumerate_bindings p.2 initialTypeEnv prims).map (fun b =>
        Hypothesis.mk [Step.primitiveCall p.1 b "O"])
    else [])

/-- `extend_hypothesis(partial, primitives, is_final)` from `generator.py`:
one more step per catalog primitive binding (filtered to grid-compatible
return types when final), then one per binding of each function-typed
environment variable. -/
def extend_hypothesis (partHyp : Hypothesis) (prims : Catalog)
    (is_final : Bool) : List Hypothesis :=
  let env := build_type_env partHyp prims
  let new_var := if is_final then "O" else next_var_name partHyp
  (prims.flatMap (fun p =>
     if is_final && !is_type_compatible p.2.return_type (Ty.base .GRID) then []
     else
       (enumerate_bindings p.2 env prims).map (fun b =>
         Hypothesis.mk (partHyp.steps ++ [Step.primitiveCall p.1 b new_var]))))
  ++ (get_callable_vars env).flatMap (fun var_name =>
       match dict_get env var_name with
       | some (Ty.callable ins out) =>
           if is_final && !is_type_compatible out (Ty.base .GRID) then []
           else
             (enumerate_call_bindings ins env prims).map (fun b =>
               Hypothesis.mk
                 (partHyp.steps ++ [Step.callVariable var_name b new_var]))
       | _ => [])

/-- `generate_partials_at_depth(depth, primitives)` from `generator.py`:
partial hypotheses whose steps may output any type. The source recurses
below depth 1 without a base case (it would never terminate there); depth
0 is modelled as empty and lies outside every verified property. -/
def generate_partials_at_depth : Nat → Catalog → List Hypothesis
  | 0, _ => []
  | 1, prims =>
      prims.flatMap (fun p =>
        (enumerate_bindings p.2 initialTypeEnv prims).map (fun b =>
          Hypothesis.mk [Step.primitiveCall p.1 b "x1"]))
  | d + 2, prims =>
      (generate_partials_at_depth (d + 1) prims).flatMap (fun partHyp =>
        extend_hypothesis partHyp prims false)

/-- `generate_at_depth(depth, primitives)` from `generator.py`: all
complete hypotheses with exactly `depth` steps. Depth 0 is modelled as
empty (the source diverges below depth 1). -/
def generate_at_depth : Nat → Catalog → List Hypothesis
  | 0, _ => []
  | 1, prims => generate_single_step prims
  | 2, prims =>
      prims.flatMap (fun p =>
        (enumerate_bindings p.2 initialTypeEnv prims).flatMap (fun b =>
          extend_hypothesis (Hypothesis.mk [Step.primitiveCall p.1 b "x1"])
            prims true))
  | d + 3, prims =>
      (generate_partials_at_depth (d + 2) prims).flatMap (fun partHyp =>
        extend_hypothesis partHyp prims true)

/-- `generate_hypotheses(max_depth, primitives)` from `generator.py`:
depths exhausted in increasing order 1, 2, …, `max_depth`. -/
def generate_hypotheses (max_depth : Nat) (prims : Catalog) :
    List Hypothesis :=
  (List.range' 1 max_depth).flatMap (fun d => generate_at_depth d prims)

/-- The runtime collaborators of `evaluator.py`: attribute lookup on the
DSL module and the constants module (Python `getattr`, which raises when
the name is missing — hence `Option`), and positional application of a
runtime callable value, which may fail with an arbitrary exception. The
values produced by the external primitive library are abstract. -/
structure Runtime (Val : Type) where
  getattr_dsl : String → Option Val
  getattr_const : String → Option Val
  call : Val → List Val → Except Unit Val

/-- Turn a failed attribute/variable lookup into an execution failure. -/
def ofLookup {α : Type} : Option α → Except Unit α
  | some v => .ok v
  | none => .error ()

/-- `resolve_arg(arg, env, dsl_module, constants_module)` from
`evaluator.py`. -/
def resolve_arg {Val : Type} (rt : Runtime Val) (arg : Argument)
    (env : List (String × Val)) : Except Unit Val :=
  match arg.kind with
  | .constant => ofLookup (rt.getattr_const arg.value)
  | .varRef => ofLookup (dict_get env arg.value)
  | .input => ofLookup (dict_get env "I")
  | .primitive => ofLookup (rt.getattr_dsl arg.value)

/-- Resolve a list of arguments in order, failing on the first failure. -/
def resolve_args {Val : Type} (rt : Runtime Val)
    (env : List (String × Val)) : List Argument → Except Unit (List Val)
  | [] => .ok []
  | a :: as => do
      let v ← resolve_arg rt a env
      let vs ← resolve_args rt env as
      .ok (v :: vs)

/-- The step-replay loop of `execute_hypothesis`: resolve the callee, then
the arguments, invoke, and bind the result to the output variable. -/
def exec_steps {Val : Type} (rt : Runtime Val) :
    List Step → List (String × Val) → Except Unit (List (String × Val))
  | [], env => .ok env
  | s :: rest, env =>
      match s with
      | .primitiveCall p args ov => do
          let f ← ofLookup (rt.getattr_dsl p)
          let vs ← resolve_args rt env args
          let r ← rt.call f vs
          exec_steps rt rest (dict_set env ov r)
      | .callVariable c args ov => do
          let f ← ofLookup (dict_get env c)
          let vs ← resolve_args rt env args
          let r ← rt.call f vs
          exec_steps rt rest (dict_set env ov r)

/-- `execute_hypothesis(hypothesis, input_grid, dsl_module,
constants_module)` from `evaluator.py`: replay every step starting from
the input binding, then return the value bound to the terminal name. -/
def execute_hypothesis {Val : Type} (rt : Runtime Val) (h : Hypothesis)
    (input : Val) : Except Unit Val := do
  let env ← exec_steps rt h.steps [("I", input)]
  ofLookup (dict_get env "O")

/-- `evaluate_hypothesis(hypothesis, examples, dsl_module,
constants_module)` from `evaluator.py`: true iff every example pair
executes successfully to exactly the expected value; any failure or
mismatch yields false (the failure is swallowed — the result type is a
plain boolean). -/
def evaluate_hypothesis {Val : Type} [DecidableEq Val] (rt : Runtime Val)
    (h : Hypothesis) : List (Val × Val) → Bool
  | [] => true
  | (input, expected) :: rest =>
      match execute_hypothesis rt h input with
      | .error _ => false
      | .ok out =>
          if out = expected then evaluate_hypothesis rt h rest else false

/-- `format_arg(arg)` from `codegen.py`. -/
def format_arg (a : Argument) : String :=
  match a.kind with
  | .constant => a.value
  | .varRef => a.value
  | .input => "I"
  | .primitive => a.value

/-- One assignment line of `hypothesis_to_code`. -/
def step_code_line (s : Step) : String :=
  match s with
  | .primitiveCall p args ov =>
      "    " ++ ov ++ " = " ++ p ++ "("
        ++ String.intercalate ", " (args.map format_arg) ++ ")"
  | .callVariable c args ov =>
      "    " ++ ov ++ " = " ++ c ++ "("
        ++ String.intercalate ", " (args.map format_arg) ++ ")"

/-- `hypothesis_to_code(hypothesis, task_id)` from `codegen.py`. -/
def hypothesis_to_code (h : Hypothesis) (task_id : String) : String :=
  String.intercalate "\n"
    ((("def solve_" ++ task_id ++ "(I):") :: h.steps.map step_code_line)
      ++ ["    return O"])

/-- `hypothesis_to_lambda(hypothesis)` from `codegen.py`: a raised
`ValueError` is modelled as `Except.error` carrying its message. -/
def hypothesis_to_lambda (h : Hypothesis) : Except String String :=
  if h.steps.length ≠ 1 then
    .error "Can only convert single-step hypotheses to lambda"
  else
    match h.steps with
    | [Step.primitiveCall p args _] =>
        .ok ("lambda I: " ++ p ++ "("
          ++ String.intercalate ", " (args.map format_arg) ++ ")")
    | _ => .error "Cannot convert variable call to lambda"

/-- The Python timeout guard `if timeout and (time.time() - start_time) >
timeout`: `None` and `0` are both falsy, so the comparison is only made
for a non-zero timeout. Elapsed times are rationals (Python floats are
modelled abstractly; only truthiness and ordering are used). -/
def timeout_exceeded (timeout : Option ℚ) (elapsed : ℚ) : Bool :=
  match timeout with
  | none => false
  | some t => decide (t ≠ 0) && decide (t < elapsed)

/-- `SearchResult` from `search.py`. -/
structure SearchResult where
  hypothesis : Hypothesis
  code : String
  depth : Nat
  hypotheses_tried : Nat
  time_elapsed : ℚ
  deriving DecidableEq, Repr

/-- The full enumeration a search run walks: for depth = 1, 2, …,
`max_depth`, the hypotheses generated at that depth, each annotated with
its depth. -/
def depth_annotated (max_depth : Nat) (prims : Catalog) :
    List (Nat × Hypothesis) :=
  (List.range' 1 max_depth).flatMap (fun d =>
    (generate_at_depth d prims).map (fun h => (d, h)))

/-- The body of the `search` loop of `search.py`, walking the flattened
depth-annotated enumeration. `elapsed k` is the elapsed wall-clock time
observed at the between-hypothesis check preceding the k-th evaluation
(Python reads `time.time()` there); `tried` is the running attempt
counter. The timeout is checked before each hypothesis; the first passing
hypothesis is returned at once with its depth, attempt count, elapsed
time and rendered source. -/
def search_go (elapsed : Nat → ℚ) (timeout : Option ℚ)
    (ev : Hypothesis → Bool) (task_id : String) :
    List (Nat × Hypothesis) → Nat → Option SearchResult
  | [], _ => none
  | (d, h) :: rest, tried =>
      if timeout_exceeded timeout (elapsed tried) then none
      else if ev h then
        some ⟨h, hypothesis_to_code h task_id, d, tried + 1, elapsed tried⟩
      else search_go elapsed timeout ev task_id rest (tried + 1)

/-- `search(task_examples, task_id, dsl_module, constants_module,
max_depth, timeout)` from `search.py`, for a caller-supplied depth
ceiling (the unbounded `max_depth=None` mode has no terminating model and
is outside the verified properties). The DSL module appears twice: as the
extracted static catalog `prims` and as the runtime `rt`. -/
def search {Val : Type} [DecidableEq Val] (elapsed : Nat → ℚ)
    (rt : Runtime Val) (task_examples : List (Val × Val)) (task_id : String)
    (prims : Catalog) (max_depth : Nat) (timeout : Option ℚ) :
    Option SearchResult :=
  search_go elapsed timeout
    (fun h => evaluate_hypothesis rt h task_examples) task_id
    (depth_annotated max_depth prims) 0

/-- The body of the `search_with_callback` loop of `search.py`: identical
control flow, plus the threaded time of the last progress callback (the
callback itself only reports progress and cannot influence the result). -/
def search_cb_go (elapsed : Nat → ℚ) (timeout : Option ℚ)
    (ev : Hypothesis → Bool) (task_id : String) :
    List (Nat × Hypothesis) → Nat → ℚ → Option SearchResult
  | [], _, _ => none
  | (d, h) :: rest, tried, last_cb =>
      let current := elapsed tried
      if timeout_exceeded timeout current then none
      else
        let next_cb := if current - last_cb > 1 / 2 then current else last_cb
        if ev h then
          some ⟨h, hypothesis_to_code h task_id, d, tried + 1, current⟩
        else search_cb_go elapsed timeout ev task_id rest (tried + 1) next_cb

/-- `search_with_callback(...)` from `search.py`, modelled like `search`
(the `last_callback` clock starts at the start time, i.e. elapsed 0). -/
def search_with_callback {Val : Type} [DecidableEq Val] (elapsed : Nat → ℚ)
    (rt : Runtime Val) (task_examples : List (Val × Val)) (task_id : String)
    (prims : Catalog) (max_depth : Nat) (timeout : Option ℚ) :
    Option SearchResult :=
  search_cb_go elapsed timeout
    (fun h => evaluate_hypothesis rt h task_examples) task_id
    (depth_annotated max_depth prims) 0 0

/-- A one-primitive demo catalog entry: `identity : Grid -> Grid`, used to
exercise the engine on concrete inputs. -/
def idInfo : PrimitiveInfo :=
  { name := "identity", param_names := ["g"],
    param_types := [Ty.base .GRID], return_type := Ty.base .GRID }

/-- Demo catalog holding just `identity`. -/
def demoPrims : Catalog := [("identity", idInfo)]

/-- Demo runtime over natural-number values: value `0` is the `identity`
callable; applying it to a single argument returns that argument. -/
def demoRt : Runtime Nat :=
  { getattr_dsl := fun n => if n = "identity" then some 0 else none,
    getattr_const := fun _ => none,
    call := fun f args =>
      if f = 0 then
        match args with
        | [a] => .ok a
        | _ => .error ()
      else .error () }

/-- The single depth-1 hypothesis of the demo catalog:
`O = identity(I)`. -/
def demoHyp : Hypothesis :=
  Hypothesis.mk [Step.primitiveCall "identity" [Argument.mk .input "I"] "O"]

/-- A demo primitive with one `CELL` parameter, for which no candidate
argument exists in a fresh environment. -/
def cellPrim : PrimitiveInfo :=
  { name := "cellprim", param_names := ["c"],
    param_types := [Ty.base .CELL], return_type := Ty.base .GRID }

/-- The search result produced by the demo search run: the depth-1 demo
hypothesis found at the first attempt. -/
def demoResult : SearchResult :=
  ⟨demoHyp, hypothesis_to_code demoHyp "t", 1, 1, 0⟩

/- ------------------------------------------------------------------ -/
/- Theorems                                                           -/
/- ------------------------------------------------------------------ -/

/-- C7: for every type t (base type or function type), the wildcard type
is compatible with t on either side of `is_type_compatible`. -/
theorem wildcard_compatible_both_sides (t : Ty) :
    is_type_compatible (Ty.base .ANY) t = true ∧
    is_type_compatible t (Ty.base .ANY) = true := by
  constructor
  · by_cases ht : t = Ty.base .ANY <;> simp [is_type_compatible, ht]
  · simp [is_type_compatible]

/-- C6 counterexample: the wildcard type is not a function type, yet it is
compatible with a function-typed parameter — refuting the unconditional
claim that a non-function argument type is always incompatible with a
function parameter type. -/
theorem callable_param_wildcard_arg_compatible :
    isCallableTy (Ty.base .ANY) = false ∧
    is_type_compatible (Ty.base .ANY)
      (Ty.callable [Ty.base .GRID] (Ty.base .GRID)) = true := by decide

/-- C6 (amended): compatibility of two function types is exactly equality
of their input-arity (element types ignored); and a non-function,
non-wildcard argument type is incompatible with a function parameter
type. -/
theorem callable_compatibility_spec :
    (∀ (a a' : List Ty) (o o' : Ty),
        is_type_compatible (Ty.callable a o) (Ty.callable a' o') =
          decide (a.length = a'.length)) ∧
    (∀ (pins : List Ty) (pout t : Ty), isCallableTy t = false →
        t ≠ Ty.base .ANY →
        is_type_compatible t (Ty.callable pins pout) = false) := by
  constructor
  · intro a a' o o'
    by_cases he : Ty.callable a o = Ty.callable a' o'
    · have ha : a = a' := by injection he
      subst ha
      simp [is_type_compatible, he]
    · simp only [is_type_compatible, he, inPatch, inElement, inPiece,
        inTupleLike]
      simp [is_type_compatible, he, inPatch, inElement, inPiece, inTupleLike]
      cases hbe : a'.length == a.length with
      | false =>
          have hl : a.length ≠ a'.length := fun hx =>
            by simp [hx] at hbe
          simp [hl]
      | true =>
          have hl : a.length = a'.length := (eq_of_beq hbe).symm
          simp [hl]
  · intro pins pout t hnc hany
    cases t with
    | callable i o => simp [isCallableTy] at hnc
    | base b =>
        have hb : b ≠ BaseType.ANY := fun hb => hany (by rw [hb])
        simp [is_type_compatible, hb, inPatch, inElement, inPiece,
          inTupleLike]

/-- C6 witness: the amended incompatibility clause at a concrete input —
a grid argument against a one-parameter function type. -/
theorem callable_compatibility_spec_witness :
    isCallableTy (Ty.base .GRID) = false ∧
    Ty.base .GRID ≠ Ty.base .ANY ∧
    is_type_compatible (Ty.base .GRID)
      (Ty.callable [Ty.base .ANY] (Ty.base .ANY)) = false :=
  ⟨by decide, by decide,
    callable_compatibility_spec.2 [Ty.base .ANY] (Ty.base .ANY)
      (Ty.base .GRID) (by decide) (by decide)⟩

/-- C8: the lambda renderer succeeds exactly on single-step
`PrimitiveCall` hypotheses, in which case it emits the single-expression
lambda form; every other shape (zero steps, several steps, or a
`CallVariable` single step) produces an error. -/
theorem lambda_renderer_spec (h : Hypothesis) :
    ((∃ src, hypothesis_to_lambda h = .ok src) ↔
      ∃ p args ov, h.steps = [Step.primitiveCall p args ov]) ∧
    (∀ p args ov, h.steps = [Step.primitiveCall p args ov] →
      hypothesis_to_lambda h =
        .ok ("lambda I: " ++ p ++ "("
          ++ String.intercalate ", " (args.map format_arg) ++ ")")) := by
  obtain ⟨steps⟩ := h
  cases steps with
  | nil => simp [hypothesis_to_lambda]
  | cons s1 tail =>
      cases tail with
      | nil =>
          cases s1 with
          | primitiveCall p args ov =>
              refine ⟨⟨fun _ => ⟨p, args, ov, rfl⟩, fun _ => ⟨_, rfl⟩⟩, ?_⟩
              intro p' args' ov' heq
              injection heq with h1 h2
              injection h1 with hp hargs hov
              subst hp
              subst hargs
              rfl
          | callVariable c args ov =>
              refine ⟨?_, ?_⟩
              · simp [hypothesis_to_lambda]
              · intro p' args' ov' heq
                injection heq with h1 h2
                exact absurd h1 (by simp)
      | cons s2 rest =>
          refine ⟨?_, ?_⟩
          · simp [hypothesis_to_lambda]
          · intro p' args' ov' heq
            simp at heq

/-- C2: `evaluate_hypothesis` is true exactly when every example pair
executes successfully to the expected value; any per-pair failure makes
it false, and — the result being a plain boolean by construction — no
underlying execution error ever reaches the caller. -/
theorem evaluate_hypothesis_iff {Val : Type} [DecidableEq Val]
    (rt : Runtime Val) (h : Hypothesis) (examples : List (Val × Val)) :
    evaluate_hypothesis rt h examples = true ↔
    ∀ pair ∈ examples, execute_hypothesis rt h pair.1 = .ok pair.2 := by
  induction examples with
  | nil => simp [evaluate_hypothesis]
  | cons e rest ih =>
      obtain ⟨i, x⟩ := e
      simp only [evaluate_hypothesis]
      cases hex : execute_hypothesis rt h i with
      | error u => simp [hex]
      | ok out =>
          by_cases ho : out = x
          · subst ho
            simp [hex, ih]
          · simp [hex, ho]

/-- Per-position option collection succeeds with exactly the per-position
candidate lists when no position is empty. -/
theorem build_options_eq_some (p : PrimitiveInfo) (env : TypeEnv)
    (prims : Catalog) :
    ∀ pts : List Ty, (∀ pt ∈ pts, candidate_options p env prims pt ≠ []) →
      build_options p env prims pts =
        some (pts.map (candidate_options p env prims))
  | [], _ => rfl
  | pt :: rest, hne => by
      have h1 : candidate_options p env prims pt ≠ [] :=
        hne pt (List.mem_cons_self pt rest)
      have h2 := build_options_eq_some p env prims rest
        (fun q hq => hne q (List.mem_cons_of_mem pt hq))
      simp [build_options, h1, h2]

/-- Per-position option collection aborts when some position is empty. -/
theorem build_options_eq_none (p : PrimitiveInfo) (env : TypeEnv)
    (prims : Catalog) :
    ∀ pts : List Ty, (∃ pt ∈ pts, candidate_options p env prims pt = []) →
      build_options p env prims pts = none
  | [], h => by simp at h
  | pt :: rest, h => by
      by_cases h1 : candidate_options p env prims pt = []
      · simp [build_options, h1]
      · have : ∃ q ∈ rest, candidate_options p env prims q = [] := by
          rcases h with ⟨q, hq, hqe⟩
          rcases List.mem_cons.1 hq with rfl | hq'
          · exact absurd hqe h1
          · exact ⟨q, hq', hqe⟩
        have h2 := build_options_eq_none p env prims rest this
        simp [build_options, h1, h2]

/-- C5: binding enumeration for a primitive — exactly one empty binding
for a nullary primitive; zero bindings as soon as one parameter position
has no candidate; otherwise exactly the cartesian product of the
per-position candidate lists. -/
theorem enumerate_bindings_spec (p : PrimitiveInfo) (env : TypeEnv)
    (prims : Catalog) :
    (p.param_types = [] → enumerate_bindings p env prims = [[]]) ∧
    ((∃ pt ∈ p.param_types, candidate_options p env prims pt = []) →
      enumerate_bindings p env prims = []) ∧
    ((∀ pt ∈ p.param_types, candidate_options p env prims pt ≠ []) →
      enumerate_bindings p env prims =
        list_product (p.param_types.map (candidate_options p env prims))) := by
  refine ⟨fun hnil => ?_, fun hempty => ?_, fun hall => ?_⟩
  · simp [enumerate_bindings, hnil]
  · have hne : p.param_types ≠ [] := by
      rcases hempty with ⟨q, hq, _⟩
      intro hnil
      rw [hnil] at hq
      simp at hq
    simp [enumerate_bindings, hne, build_options_eq_none p env prims _ hempty]
  · by_cases hnil : p.param_types = []
    · simp [enumerate_bindings, hnil, list_product]
    · simp [enumerate_bindings, hnil,
        build_options_eq_some p env prims _ hall]

/-- C5 witness: a unary primitive expecting a `CELL` in a fresh
environment has an empty candidate list, hence zero bindings. -/
theorem enumerate_bindings_spec_witness :
    (∃ pt ∈ cellPrim.param_types,
      candidate_options cellPrim initialTypeEnv [] pt = []) ∧
    enumerate_bindings cellPrim initialTypeEnv [] = [] :=
  ⟨by decide, (enumerate_bindings_spec cellPrim initialTypeEnv []).2.1
    (by decide)⟩

/-- Every hypothesis yielded by `extend_hypothesis` is the input partial
hypothesis plus exactly one new step, bound to the terminal name when
final and to the next sequential variable otherwise. -/
theorem mem_extend_hypothesis {h' partHyp : Hypothesis} {prims : Catalog}
    {fin : Bool} (hm : h' ∈ extend_hypothesis partHyp prims fin) :
    ∃ s : Step, h'.steps = partHyp.steps ++ [s] ∧
      s.outputVar = (if fin then "O" else next_var_name partHyp) := by
  simp only [extend_hypothesis] at hm
  rcases List.mem_append.1 hm with hm1 | hm2
  · rcases List.mem_flatMap.1 hm1 with ⟨q, hq, hin⟩
    split at hin
    · simp at hin
    · rcases List.mem_map.1 hin with ⟨b, hb, rfl⟩
      exact ⟨_, rfl, rfl⟩
  · rcases List.mem_flatMap.1 hm2 with ⟨v, hv, hin⟩
    cases hdg : dict_get (build_type_env partHyp prims) v with
    | none => simp only [hdg] at hin; simp at hin
    | some t =>
        cases t with
        | base b => simp only [hdg] at hin; simp at hin
        | callable ins out =>
            simp only [hdg] at hin
            split at hin
            · simp at hin
            · rcases List.mem_map.1 hin with ⟨b, hb, rfl⟩
              exact ⟨_, rfl, rfl⟩

/-- Every hypothesis yielded by `generate_single_step` is a single
primitive call from the catalog, bound to the terminal name, whose
declared return type is grid-compatible. -/
theorem mem_generate_single_step {prims : Catalog} {h : Hypothesis}
    (hm : h ∈ generate_single_step prims) :
    ∃ pr ∈ prims, ∃ b, h.steps = [Step.primitiveCall pr.1 b "O"] ∧
      is_type_compatible pr.2.return_type (Ty.base .GRID) = true := by
  simp only [generate_single_step] at hm
  rcases List.mem_flatMap.1 hm with ⟨pr, hpr, hin⟩
  split at hin
  next hc =>
    rcases List.mem_map.1 hin with ⟨b, hb, rfl⟩
    exact ⟨pr, hpr, b, rfl, hc⟩
  next => simp at hin

/-- Partial hypotheses of depth d + 1 bind their steps to the sequential
variables x1 … x(d+1), in positional order. -/
theorem partials_output_vars (prims : Catalog) :
    ∀ d : Nat, ∀ h ∈ generate_partials_at_depth (d + 1) prims,
      h.steps.map Step.outputVar =
        (List.range' 1 (d + 1)).map (fun i => "x" ++ toString i)
  | 0, h, hm => by
      simp only [generate_partials_at_depth] at hm
      rcases List.mem_flatMap.1 hm with ⟨p, hp, hin⟩
      rcases List.mem_map.1 hin with ⟨b, hb, rfl⟩
      simp [Step.outputVar]
      decide
  | d + 1, h, hm => by
      simp only [generate_partials_at_depth] at hm
      rcases List.mem_flatMap.1 hm with ⟨q, hq, hin⟩
      obtain ⟨s, hsteps, hov⟩ := mem_extend_hypothesis hin
      have ih := partials_output_vars prims d q hq
      have hlen : q.steps.length = d + 1 := by
        have hl := congrArg List.length ih
        simpa using hl
      have hsv : s.outputVar = "x" ++ toString (d + 2) := by
        simpa [next_var_name, hlen] using hov
      have harith : 1 + 1 * (d + 1) = d + 2 := by omega
      have hcat : List.range' 1 (d + 1 + 1) =
          List.range' 1 (d + 1) ++ [d + 2] := by
        rw [List.range'_concat, harith]
      rw [hsteps, List.map_append, ih, hcat, List.map_append]
      simp [hsv]

/-- The output variables of every complete hypothesis generated at depth
d are x1 … x(d-1) followed by the terminal name. -/
theorem generate_at_depth_output_vars (prims : Catalog) :
    ∀ d : Nat, 1 ≤ d → ∀ h ∈ generate_at_depth d prims,
      h.steps.map Step.outputVar =
        (List.range' 1 (d - 1)).map (fun i => "x" ++ toString i) ++ ["O"] := by
  intro d hd h hm
  match d, hd with
  | 1, _ =>
      obtain ⟨pr, hpr, b, hsteps, hcompat⟩ := mem_generate_single_step hm
      rw [hsteps]
      simp [Step.outputVar]
  | 2, _ =>
      simp only [generate_at_depth] at hm
      rcases List.mem_flatMap.1 hm with ⟨p, hp, hin⟩
      rcases List.mem_flatMap.1 hin with ⟨b, hb, hext⟩
      obtain ⟨s, hsteps, hov⟩ := mem_extend_hypothesis hext
      simp only [if_true] at hov
      rw [hsteps]
      simp only [List.map_append, List.map_cons, List.map_nil]
      rw [hov]
      simp [Step.outputVar, List.range']
      decide
  | d + 3, _ =>
      simp only [generate_at_depth] at hm
      rcases List.mem_flatMap.1 hm with ⟨q, hq, hext⟩
      obtain ⟨s, hsteps, hov⟩ := mem_extend_hypothesis hext
      have ih := partials_output_vars prims (d + 1) q hq
      simp only [if_true] at hov
      rw [hsteps, List.map_append, ih]
      simp only [List.map_cons, List.map_nil]
      rw [hov]
      simp

/-- C4: every hypothesis generated at depth d ≥ 1 has exactly d steps;
its non-final steps are bound, in positional order, to x1 … x(d-1) and
the final step to the terminal name O (so at depth 1 the single step is
bound to O); and at depth 1 the single step is a catalog primitive call
with a grid-compatible return type. -/
theorem generated_hypothesis_shape (d : Nat) (prims : Catalog)
    (hd : 1 ≤ d) (h : Hypothesis) (hm : h ∈ generate_at_depth d prims) :
    h.steps.length = d ∧
    h.steps.map Step.outputVar =
      (List.range' 1 (d - 1)).map (fun i => "x" ++ toString i) ++ ["O"] ∧
    (d = 1 → ∃ pr ∈ prims, ∃ b,
      h.steps = [Step.primitiveCall pr.1 b "O"] ∧
      is_type_compatible pr.2.return_type (Ty.base .GRID) = true) := by
  have hvars := generate_at_depth_output_vars prims d hd h hm
  refine ⟨?_, hvars, ?_⟩
  · have hl := congrArg List.length hvars
    simp [List.length_map, List.length_range'] at hl
    omega
  · rintro rfl
    exact mem_generate_single_step hm

/-- C4 witness: the depth-1 enumeration of the demo catalog contains the
hypothesis `O = identity(I)`, and the theorem evaluates on it. -/
theorem generated_hypothesis_shape_witness :
    (1 ≤ 1 ∧ demoHyp ∈ generate_at_depth 1 demoPrims) ∧
    (demoHyp.steps.length = 1 ∧
      demoHyp.steps.map Step.outputVar =
        (List.range' 1 (1 - 1)).map (fun i => "x" ++ toString i) ++ ["O"] ∧
      (1 = 1 → ∃ pr ∈ demoPrims, ∃ b,
        demoHyp.steps = [Step.primitiveCall pr.1 b "O"] ∧
        is_type_compatible pr.2.return_type (Ty.base .GRID) = true)) :=
  ⟨⟨Nat.le_refl 1, by decide⟩,
    generated_hypothesis_shape 1 demoPrims (Nat.le_refl 1) demoHyp
      (by decide)⟩

/-- Unfolding: the search loop on an exhausted enumeration. -/
theorem search_go_nil (elapsed : Nat → ℚ) (timeout : Option ℚ)
    (ev : Hypothesis → Bool) (task_id : String) (k : Nat) :
    search_go elapsed timeout ev task_id [] k = none := rfl

/-- Unfolding: one iteration of the search loop. -/
theorem search_go_cons (elapsed : Nat → ℚ) (timeout : Option ℚ)
    (ev : Hypothesis → Bool) (task_id : String) (d : Nat) (h : Hypothesis)
    (rest : List (Nat × Hypothesis)) (k : Nat) :
    search_go elapsed timeout ev task_id ((d, h) :: rest) k =
      (if timeout_exceeded timeout (elapsed k) then none
       else if ev h then
         some ⟨h, hypothesis_to_code h task_id, d, k + 1, elapsed k⟩
       else search_go elapsed timeout ev task_id rest (k + 1)) := rfl

/-- A relation that holds everywhere is pairwise on every list. -/
theorem pairwise_of_total {α : Type} {R : α → α → Prop}
    (hr : ∀ a b, R a b) : ∀ l : List α, l.Pairwise R
  | [] => List.Pairwise.nil
  | a :: l => List.Pairwise.cons (fun b _ => hr a b) (pairwise_of_total hr l)

/-- Labelling each block of a flat-mapped list with its (sorted) source
element keeps the labels sorted. -/
theorem flatMap_label_pairwise (f : Nat → List Hypothesis) :
    ∀ ds : List Nat, ds.Pairwise (· ≤ ·) →
      (ds.flatMap (fun d => (f d).map (fun h => (d, h)))).Pairwise
        (fun a b => a.1 ≤ b.1)
  | [], _ => by simp
  | d :: ds, hp => by
      simp only [List.flatMap_cons]
      rw [List.pairwise_append]
      refine ⟨?_, ?_, ?_⟩
      · exact List.pairwise_map.2
          (pairwise_of_total (fun a b => Nat.le_refl d) _)
      · exact flatMap_label_pairwise f ds (List.pairwise_cons.1 hp).2
      · intro a ha b hb
        rcases List.mem_map.1 ha with ⟨h1, _, rfl⟩
        rcases List.mem_flatMap.1 hb with ⟨d', hd', hb'⟩
        rcases List.mem_map.1 hb' with ⟨h2, _, rfl⟩
        exact (List.pairwise_cons.1 hp).1 d' hd'

/-- The depth labels along the flattened enumeration are nondecreasing. -/
theorem depth_annotated_pairwise (max_depth : Nat) (prims : Catalog) :
    (depth_annotated max_depth prims).Pairwise (fun a b => a.1 ≤ b.1) :=
  flatMap_label_pairwise (fun d => generate_at_depth d prims)
    (List.range' 1 max_depth)
    ((List.pairwise_lt_range' 1 max_depth).imp Nat.le_of_lt)

/-- A member of the flattened enumeration has a positive depth within the
budget and is generated at its recorded depth. -/
theorem mem_depth_annotated {max_depth : Nat} {prims : Catalog}
    {d : Nat} {h : Hypothesis}
    (hm : (d, h) ∈ depth_annotated max_depth prims) :
    1 ≤ d ∧ d ≤ max_depth ∧ h ∈ generate_at_depth d prims := by
  simp only [depth_annotated] at hm
  rcases List.mem_flatMap.1 hm with ⟨d', hd', hin⟩
  rcases List.mem_map.1 hin with ⟨h', hh', heq⟩
  cases heq
  rcases List.mem_range'_1.1 hd' with ⟨h1, h2⟩
  exact ⟨h1, by omega, hh'⟩

/-- Entries at strictly smaller depth occur strictly earlier in the
flattened enumeration. -/
theorem depth_annotated_mono {max_depth : Nat} {prims : Catalog}
    {j k dj dk : Nat} {hj hk : Hypothesis}
    (hgj : (depth_annotated max_depth prims)[j]? = some (dj, hj))
    (hgk : (depth_annotated max_depth prims)[k]? = some (dk, hk))
    (hlt : dj < dk) : j < k := by
  rcases List.getElem?_eq_some.1 hgj with ⟨hjl, hjv⟩
  rcases List.getElem?_eq_some.1 hgk with ⟨hkl, hkv⟩
  by_contra hge
  push_neg at hge
  rcases Nat.lt_or_ge k j with hkj | hjk
  · have hp := (List.pairwise_iff_get).1
      (depth_annotated_pairwise max_depth prims) ⟨k, hkl⟩ ⟨j, hjl⟩ hkj
    simp only [List.get_eq_getElem, hjv, hkv] at hp
    omega
  · have hkeqj : k = j := by omega
    subst hkeqj
    rw [hjv] at hkv
    have : dj = dk := by
      have := congrArg Prod.fst hkv
      simpa using this
    omega

/-- If the search loop returns a result, the result records the first
entry of the remaining enumeration that passes evaluation: every earlier
entry was checked for timeout (not exceeded) and failed evaluation, the
returned entry passed, and the counters/elapsed/rendered code are taken
at its position. -/
theorem search_go_eq_some (elapsed : Nat → ℚ) (timeout : Option ℚ)
    (ev : Hypothesis → Bool) (task_id : String) :
    ∀ (L : List (Nat × Hypothesis)) (k : Nat) (r : SearchResult),
      search_go elapsed timeout ev task_id L k = some r →
      ∃ i, L[i]? = some (r.depth, r.hypothesis) ∧
        ev r.hypothesis = true ∧
        r.hypotheses_tried = k + i + 1 ∧
        r.time_elapsed = elapsed (k + i) ∧
        r.code = hypothesis_to_code r.hypothesis task_id ∧
        timeout_exceeded timeout (elapsed (k + i)) = false ∧
        (∀ j, j < i → ∀ dh : Nat × Hypothesis, L[j]? = some dh →
          timeout_exceeded timeout (elapsed (k + j)) = false ∧
          ev dh.2 = false)
  | [], k, r, hsr => by simp [search_go_nil] at hsr
  | (d, hyp) :: rest, k, r, hsr => by
      rw [search_go_cons] at hsr
      split at hsr
      · exact absurd hsr (by simp)
      next hto =>
        have hto' : timeout_exceeded timeout (elapsed k) = false :=
          Bool.not_eq_true _ ▸ eq_false_of_ne_true hto
        split at hsr
        next hev =>
          injection hsr with hsr'
          subst hsr'
          refine ⟨0, by simp, hev, by simp, by simp, rfl, by simpa using hto',
            ?_⟩
          intro j hj
          exact absurd hj (Nat.not_lt_zero j)
        next hev =>
          obtain ⟨i, hget, hev', htried, htime, hcode, htoi, hprev⟩ :=
            search_go_eq_some elapsed timeout ev task_id rest (k + 1) r hsr
          refine ⟨i + 1, by simpa using hget, hev', by omega, ?_, hcode, ?_,
            ?_⟩
          · rw [htime]
            congr 1
            omega
          · have : k + 1 + i = k + (i + 1) := by omega
            rw [← this]
            exact htoi
          · intro j hj dh hdh
            cases j with
            | zero =>
                simp only [List.getElem?_cons_zero] at hdh
                injection hdh with hdh'
                subst hdh'
                exact ⟨by simpa using hto', by simpa using hev⟩
            | succ j' =>
                simp only [List.getElem?_cons_succ] at hdh
                have hj' : j' < i := by omega
                have := hprev j' hj' dh hdh
                have harith : k + 1 + j' = k + (j' + 1) := by omega
                rw [harith] at this
                exact this

/-- If some entry of the remaining enumeration trips the timeout check,
and every earlier entry passed its check and failed evaluation, the
search loop aborts with no result — without evaluating that entry. -/
theorem search_go_abort (elapsed : Nat → ℚ) (timeout : Option ℚ)
    (ev : Hypothesis → Bool) (task_id : String) :
    ∀ (L : List (Nat × Hypothesis)) (k i : Nat) (dh : Nat × Hypothesis),
      L[i]? = some dh →
      timeout_exceeded timeout (elapsed (k + i)) = true →
      (∀ j, j < i → ∀ dh' : Nat × Hypothesis, L[j]? = some dh' →
        timeout_exceeded timeout (elapsed (k + j)) = false ∧
        ev dh'.2 = false) →
      search_go elapsed timeout ev task_id L k = none
  | [], k, i, dh, hget, _, _ => by simp at hget
  | (d, hyp) :: rest, k, i, dh, hget, hto, hprev => by
      rw [search_go_cons]
      cases i with
      | zero =>
          simp only [Nat.add_zero] at hto
          rw [hto]
          simp
      | succ i' =>
          have h0 := hprev 0 (Nat.succ_pos i') (d, hyp)
            (by simp)
          have hto0 : timeout_exceeded timeout (elapsed (k + 0)) = false :=
            h0.1
          simp only [Nat.add_zero] at hto0
          rw [hto0]
          simp only [Bool.false_eq_true, if_false]
          have hev0 : ev hyp = false := h0.2
          rw [hev0]
          simp only [Bool.false_eq_true, if_false]
          apply search_go_abort elapsed timeout ev task_id rest (k + 1) i' dh
          · simpa using hget
          · have : k + 1 + i' = k + (i' + 1) := by omega
            rw [this]
            exact hto
          · intro j hj dh' hdh'
            have := hprev (j + 1) (by omega) dh' (by simpa using hdh')
            have harith : k + (j + 1) = k + 1 + j := by omega
            rw [harith] at this
            exact this

/-- A zero timeout and no timeout make the search loop agree (the Python
guard treats both as falsy). -/
theorem search_go_timeout_zero (elapsed : Nat → ℚ)
    (ev : Hypothesis → Bool) (task_id : String) :
    ∀ (L : List (Nat × Hypothesis)) (k : Nat),
      search_go elapsed (some 0) ev task_id L k =
        search_go elapsed none ev task_id L k
  | [], _ => rfl
  | (d, hyp) :: rest, k => by
      rw [search_go_cons, search_go_cons]
      have h1 : timeout_exceeded (some 0) (elapsed k) = false := by
        simp [timeout_exceeded]
      have h2 : timeout_exceeded none (elapsed k) = false := rfl
      rw [h1, h2]
      simp only [Bool.false_eq_true, if_false]
      split
      · rfl
      · exact search_go_timeout_zero elapsed ev task_id rest (k + 1)

/-- Unfolding: one iteration of the callback-variant search loop. -/
theorem search_cb_go_cons (elapsed : Nat → ℚ) (timeout : Option ℚ)
    (ev : Hypothesis → Bool) (task_id : String) (d : Nat) (h : Hypothesis)
    (rest : List (Nat × Hypothesis)) (k : Nat) (last_cb : ℚ) :
    search_cb_go elapsed timeout ev task_id ((d, h) :: rest) k last_cb =
      (if timeout_exceeded timeout (elapsed k) then none
       else if ev h then
         some ⟨h, hypothesis_to_code h task_id, d, k + 1, elapsed k⟩
       else
         search_cb_go elapsed timeout ev task_id rest (k + 1)
           (if elapsed k - last_cb > 1 / 2 then elapsed k else last_cb)) :=
  rfl

/-- A zero timeout and no timeout also make the callback-variant loop
agree. -/
theorem search_cb_go_timeout_zero (elapsed : Nat → ℚ)
    (ev : Hypothesis → Bool) (task_id : String) :
    ∀ (L : List (Nat × Hypothesis)) (k : Nat) (last_cb : ℚ),
      search_cb_go elapsed (some 0) ev task_id L k last_cb =
        search_cb_go elapsed none ev task_id L k last_cb
  | [], _, _ => rfl
  | (d, hyp) :: rest, k, last_cb => by
      rw [search_cb_go_cons, search_cb_go_cons]
      have h1 : timeout_exceeded (some 0) (elapsed k) = false := by
        simp [timeout_exceeded]
      have h2 : timeout_exceeded none (elapsed k) = false := rfl
      rw [h1, h2]
      simp only [Bool.false_eq_true, if_false]
      split
      · rfl
      · exact search_cb_go_timeout_zero elapsed ev task_id rest (k + 1) _

/-- C1: when `search` returns a result, its hypothesis is the first in
enumeration order to pass all examples — every earlier generated
hypothesis was evaluated and failed — and no hypothesis with strictly
fewer steps anywhere in the run's enumeration (depths walked in
increasing order 1, 2, …) passes all examples. -/
theorem search_returns_first_minimal {Val : Type} [DecidableEq Val]
    (elapsed : Nat → ℚ) (rt : Runtime Val) (examples : List (Val × Val))
    (task_id : String) (prims : Catalog) (max_depth : Nat)
    (timeout : Option ℚ) (r : SearchResult)
    (hr : search elapsed rt examples task_id prims max_depth timeout =
      some r) :
    ∃ i : Nat, (depth_annotated max_depth prims)[i]? =
        some (r.depth, r.hypothesis) ∧
      evaluate_hypothesis rt r.hypothesis examples = true ∧
      r.hypotheses_tried = i + 1 ∧
      (∀ j : Nat, j < i → ∀ dh : Nat × Hypothesis,
        (depth_annotated max_depth prims)[j]? = some dh →
        evaluate_hypothesis rt dh.2 examples = false) ∧
      (∀ j : Nat, ∀ dh : Nat × Hypothesis,
        (depth_annotated max_depth prims)[j]? = some dh →
        dh.2.steps.length < r.hypothesis.steps.length →
        evaluate_hypothesis rt dh.2 examples = false) := by
  obtain ⟨i, hget, hev, htried, htime, hcode, hto, hprev⟩ :=
    search_go_eq_some elapsed timeout _ task_id
      (depth_annotated max_depth prims) 0 r hr
  have hmem := List.getElem?_mem hget
  obtain ⟨hd1, hdmax, hgen⟩ := mem_depth_annotated hmem
  have hshape := generated_hypothesis_shape r.depth prims hd1 r.hypothesis
    hgen
  refine ⟨i, hget, hev, by omega, ?_, ?_⟩
  · intro j hj dh hdh
    exact ((hprev j hj dh (by simpa using hdh)).2)
  · intro j dh hdh hlen
    obtain ⟨dj, hypj⟩ := dh
    have hmemj := List.getElem?_mem hdh
    obtain ⟨hdj1, _, hgenj⟩ := mem_depth_annotated hmemj
    have hshj := generated_hypothesis_shape dj prims hdj1 hypj hgenj
    have hdlt : dj < r.depth := by
      have h1 := hshj.1
      have h2 := hshape.1
      simp only at hlen
      omega
    have hji : j < i := depth_annotated_mono hdh hget hdlt
    exact (hprev j hji (dj, hypj) (by simpa using hdh)).2

/-- C1 witness: on the demo run the returned result is the sole depth-1
hypothesis, found at attempt 1, with nothing before it and nothing
shallower. -/
theorem search_returns_first_minimal_witness :
    (search (fun _ => (0 : ℚ)) demoRt [(5, 5)] "t" demoPrims 1 none =
      some demoResult) ∧
    (∃ i : Nat, (depth_annotated 1 demoPrims)[i]? =
        some (demoResult.depth, demoResult.hypothesis) ∧
      evaluate_hypothesis demoRt demoResult.hypothesis [(5, 5)] = true ∧
      demoResult.hypotheses_tried = i + 1 ∧
      (∀ j : Nat, j < i → ∀ dh : Nat × Hypothesis,
        (depth_annotated 1 demoPrims)[j]? = some dh →
        evaluate_hypothesis demoRt dh.2 [(5, 5)] = false) ∧
      (∀ j : Nat, ∀ dh : Nat × Hypothesis,
        (depth_annotated 1 demoPrims)[j]? = some dh →
        dh.2.steps.length < demoResult.hypothesis.steps.length →
        evaluate_hypothesis demoRt dh.2 [(5, 5)] = false)) :=
  ⟨rfl, search_returns_first_minimal (fun _ => (0 : ℚ)) demoRt [(5, 5)] "t"
    demoPrims 1 none demoResult rfl⟩

/-- C3: (a) in a returning run, every between-hypothesis check that was
made observed the timeout not exceeded — the search never evaluates a
hypothesis after the timeout has been exceeded; (b) as soon as a check
observes the timeout exceeded (all earlier checks passing and all
earlier hypotheses failing), the search returns no result without
evaluating the pending hypothesis — even when a passing hypothesis
exists later at the same depth. -/
theorem timeout_checked_between_hypotheses {Val : Type} [DecidableEq Val]
    (elapsed : Nat → ℚ) (rt : Runtime Val) (examples : List (Val × Val))
    (task_id : String) (prims : Catalog) (max_depth : Nat)
    (timeout : Option ℚ) :
    (∀ r, search elapsed rt examples task_id prims max_depth timeout =
        some r →
      ∀ j, j < r.hypotheses_tried →
        timeout_exceeded timeout (elapsed j) = false) ∧
    (∀ (i : Nat) (dh : Nat × Hypothesis),
      (depth_annotated max_depth prims)[i]? = some dh →
      timeout_exceeded timeout (elapsed i) = true →
      (∀ j, j < i → ∀ dh' : Nat × Hypothesis,
        (depth_annotated max_depth prims)[j]? = some dh' →
        timeout_exceeded timeout (elapsed j) = false ∧
        evaluate_hypothesis rt dh'.2 examples = false) →
      search elapsed rt examples task_id prims max_depth timeout = none) := by
  constructor
  · intro r hr j hj
    obtain ⟨i, hget, hev, htried, _, _, hto, hprev⟩ :=
      search_go_eq_some elapsed timeout _ task_id
        (depth_annotated max_depth prims) 0 r hr
    rcases Nat.lt_or_ge j i with hlt | hge
    · rcases List.getElem?_eq_some.1 hget with ⟨hil, _⟩
      have hjl : j < (depth_annotated max_depth prims).length := by omega
      have hpj := hprev j hlt ((depth_annotated max_depth prims)[j])
        (List.getElem?_eq_getElem hjl)
      simpa using hpj.1
    · have hjeq : j = i := by omega
      subst hjeq
      simpa using hto
  · intro i dh hget hto hprev
    exact search_go_abort elapsed timeout _ task_id
      (depth_annotated max_depth prims) 0 i dh hget (by simpa using hto)
      (fun j hj dh' hdh' => by simpa using hprev j hj dh' hdh')

/-- C3 witness: the timeout is already exceeded at the very first check,
so the demo search returns no result even though the pending (never
evaluated) hypothesis would have passed the examples. -/
theorem timeout_checked_between_hypotheses_witness :
    ((depth_annotated 1 demoPrims)[0]? = some (1, demoHyp) ∧
      timeout_exceeded (some 1) ((fun _ => (2 : ℚ)) 0) = true ∧
      evaluate_hypothesis demoRt demoHyp [(5, 5)] = true) ∧
    search (fun _ => (2 : ℚ)) demoRt [(5, 5)] "t" demoPrims 1 (some 1) =
      none :=
  ⟨⟨by decide, by decide, by decide⟩,
    (timeout_checked_between_hypotheses (fun _ => (2 : ℚ)) demoRt [(5, 5)]
        "t" demoPrims 1 (some 1)).2 0 (1, demoHyp) (by decide) (by decide)
      (fun j hj dh' hdh' => absurd hj (Nat.not_lt_zero j))⟩

/-- C9: a timeout equal to 0 disables the timeout check entirely — both
`search` and `search_with_callback` behave exactly as if no timeout had
been supplied. -/
theorem timeout_zero_disables {Val : Type} [DecidableEq Val]
    (elapsed : Nat → ℚ) (rt : Runtime Val) (examples : List (Val × Val))
    (task_id : String) (prims : Catalog) (max_depth : Nat) :
    search elapsed rt examples task_id prims max_depth (some 0) =
      search elapsed rt examples task_id prims max_depth none ∧
    search_with_callback elapsed rt examples task_id prims max_depth
        (some 0) =
      search_with_callback elapsed rt examples task_id prims max_depth
        none :=
  ⟨search_go_timeout_zero elapsed _ task_id _ 0,
    search_cb_go_timeout_zero elapsed _ task_id _ 0 0⟩

/-- C10 counterexample: with zero examples, evaluation is vacuously true
and the generator produces a first hypothesis, yet a search whose timeout
is already exceeded at the first check returns no result rather than that
hypothesis. -/
theorem zero_examples_search_counterexample :
    evaluate_hypothesis demoRt demoHyp ([] : List (Nat × Nat)) = true ∧
    depth_annotated 1 demoPrims = [(1, demoHyp)] ∧
    search (fun _ => (2 : ℚ)) demoRt ([] : List (Nat × Nat)) "t" demoPrims 1
      (some 1) = none := by decide

/-- C10 (amended): evaluation over an empty example list is vacuously
true for every hypothesis; consequently — provided the first timeout
check does not already abort and the enumeration within the depth budget
is nonempty — a search given zero examples returns the first hypothesis
the generator produces, at attempt 1. -/
theorem zero_examples_returns_first {Val : Type} [DecidableEq Val]
    (elapsed : Nat → ℚ) (rt : Runtime Val) (task_id : String)
    (prims : Catalog) (max_depth : Nat) (timeout : Option ℚ)
    (d0 : Nat) (h0 : Hypothesis) (rest : List (Nat × Hypothesis))
    (hflat : depth_annotated max_depth prims = (d0, h0) :: rest)
    (hto : timeout_exceeded timeout (elapsed 0) = false) :
    (∀ hyp : Hypothesis,
      evaluate_hypothesis rt hyp ([] : List (Val × Val)) = true) ∧
    search elapsed rt ([] : List (Val × Val)) task_id prims max_depth
        timeout =
      some ⟨h0, hypothesis_to_code h0 task_id, d0, 1, elapsed 0⟩ := by
  refine ⟨fun hyp => rfl, ?_⟩
  show search_go elapsed timeout _ task_id
    (depth_annotated max_depth prims) 0 = _
  rw [hflat, search_go_cons, hto]
  simp [evaluate_hypothesis]

/-- C10 witness: the demo search with no timeout and zero examples
returns the sole generated hypothesis at attempt 1. -/
theorem zero_examples_returns_first_witness :
    (depth_annotated 1 demoPrims = [(1, demoHyp)] ∧
      timeout_exceeded none ((fun _ => (0 : ℚ)) 0) = false) ∧
    ((∀ hyp : Hypothesis,
        evaluate_hypothesis demoRt hyp ([] : List (Nat × Nat)) = true) ∧
      search (fun _ => (0 : ℚ)) demoRt ([] : List (Nat × Nat)) "t"
          demoPrims 1 none =
        some ⟨demoHyp, hypothesis_to_code demoHyp "t", 1, 1, 0⟩) :=
  ⟨⟨by decide, rfl⟩,
    zero_examples_returns_first (fun _ => (0 : ℚ)) demoRt "t" demoPrims 1
      none 1 demoHyp [] (by decide) rfl⟩

end ArcIlp
